import Mathlib

/-!
Verification of the core logic of the `stopwatch_with_labeled_laps` repository:
the lap/label session engine (`src/screens/timer_screen.py`), the label store
(`src/managers/label_manager.py`), state persistence
(`src/managers/state_manager.py`), the CSV export transform
(`src/utils/export.py`) and the time formatter (`src/utils/formatting.py`).

Python floats are modelled as exact rationals (`ℚ`); Python dicts are modelled
as insertion-ordered association lists, mirroring Python 3.7+ dict semantics
(new keys appended at the end, updates in place).
-/

namespace Stopwatch

/-! ### Decimal rendering of numbers

Python renders integers in f-strings via their decimal representation
(`f"{base_name}({counter})"` in `StateManager._get_unique_save_name`,
`f"{minutes}:{secs:02d}.{millis:03d}"` in `format_time`).  `natReprAux` is the
standard division/remainder digit algorithm, fuelled for structural
termination; fuel `n+1` always suffices since `n < 10 ^ (n+1)`. -/

def natReprAux : Nat → Nat → List Char
  | 0, _ => []
  | fuel+1, n =>
      if n < 10 then [Nat.digitChar n]
      else natReprAux fuel (n / 10) ++ [Nat.digitChar (n % 10)]

def natRepr (n : Nat) : String := ⟨natReprAux (n + 1) n⟩

/-- Decimal rendering of a possibly negative integer, as Python `str(int)`. -/
def intRepr (i : Int) : String :=
  if i < 0 then "-" ++ natRepr i.natAbs else natRepr i.toNat

/-- Value of a decimal digit character (inverse of `Nat.digitChar` below 10). -/
def chVal (c : Char) : Nat := c.toNat - 48

/-- Value of a list of decimal digit characters, most significant first. -/
def strVal (cs : List Char) : Nat := cs.foldl (fun a c => 10 * a + chVal c) 0

theorem chVal_digitChar {d : Nat} (h : d < 10) : chVal (Nat.digitChar d) = d := by
  interval_cases d <;> rfl

theorem strVal_append_singleton (cs : List Char) (c : Char) :
    strVal (cs ++ [c]) = 10 * strVal cs + chVal c := by
  simp [strVal, List.foldl_append]

theorem strVal_natReprAux : ∀ (fuel n : Nat), n < 10 ^ fuel →
    strVal (natReprAux fuel n) = n := by
  intro fuel
  induction fuel with
  | zero =>
      intro n hn
      simp only [pow_zero, Nat.lt_one_iff] at hn
      subst hn; rfl
  | succ fuel ih =>
      intro n hn
      by_cases h : n < 10
      · simp [natReprAux, h, strVal, chVal_digitChar h]
      · have hdiv : n / 10 < 10 ^ fuel := by
          rw [Nat.div_lt_iff_lt_mul (by norm_num : 0 < 10)]
          calc n < 10 ^ (fuel + 1) := hn
            _ = 10 ^ fuel * 10 := by ring
        rw [natReprAux, if_neg h, strVal_append_singleton, ih _ hdiv,
          chVal_digitChar (Nat.mod_lt _ (by norm_num))]
        omega

theorem lt_ten_pow_succ_self (n : Nat) : n < 10 ^ (n + 1) := by
  calc n < 2 ^ n := Nat.lt_two_pow n
    _ ≤ 10 ^ n := Nat.pow_le_pow_left (by norm_num) n
    _ ≤ 10 ^ (n + 1) := Nat.pow_le_pow_right (by norm_num) (Nat.le_succ n)

theorem strVal_natRepr (n : Nat) : strVal (natRepr n).data = n :=
  strVal_natReprAux (n + 1) n (lt_ten_pow_succ_self n)

theorem natRepr_injective : Function.Injective natRepr := by
  intro a b h
  have : (natRepr a).data = (natRepr b).data := by rw [h]
  have := congrArg strVal this
  rwa [strVal_natRepr, strVal_natRepr] at this

theorem natReprAux_ne_nil (fuel n : Nat) (h : 0 < fuel) :
    natReprAux fuel n ≠ [] := by
  cases fuel with
  | zero => omega
  | succ fuel =>
      rw [natReprAux]
      split
      · exact List.cons_ne_nil _ _
      · intro hc
        exact absurd (List.append_eq_nil.mp hc).2 (List.cons_ne_nil _ _)

theorem natReprAux_head_ne_zero : ∀ (fuel n : Nat), 1 ≤ n → n < 10 ^ fuel →
    (natReprAux fuel n).head? ≠ some '0' := by
  intro fuel
  induction fuel with
  | zero =>
      intro n h1 h2
      simp only [pow_zero] at h2; omega
  | succ fuel ih =>
      intro n h1 h2
      by_cases h : n < 10
      · rw [natReprAux, if_pos h]
        have : Nat.digitChar n ≠ '0' := by interval_cases n <;> simp_all <;> decide
        simpa using this
      · have hfuel : 0 < fuel := by
          by_contra hc
          have : fuel = 0 := by omega
          subst this
          norm_num at h2; omega
        have hdiv1 : 1 ≤ n / 10 := Nat.one_le_div_iff (by norm_num) |>.mpr (by omega)
        have hdiv2 : n / 10 < 10 ^ fuel := by
          rw [Nat.div_lt_iff_lt_mul (by norm_num : 0 < 10)]
          calc n < 10 ^ (fuel + 1) := h2
            _ = 10 ^ fuel * 10 := by ring
        rw [natReprAux, if_neg h]
        cases hh : natReprAux fuel (n / 10) with
        | nil => exact absurd hh (natReprAux_ne_nil fuel (n / 10) hfuel)
        | cons d rest =>
            have hhd := ih (n / 10) hdiv1 hdiv2
            rw [hh] at hhd
            simp only [List.cons_append, List.head?_cons] at hhd ⊢
            exact hhd

theorem natRepr_head_ne_zero {n : Nat} (h : 0 < n) :
    (natRepr n).data.head? ≠ some '0' :=
  natReprAux_head_ne_zero (n + 1) n h (lt_ten_pow_succ_self n)

/-! ### Time formatting — `src/utils/formatting.py`, `format_time`

```python
minutes = int(seconds // 60)
secs = int(seconds % 60)
millis = int((seconds % 1) * 1000)
return f"{minutes}:{secs:02d}.{millis:03d}"
```

Python `%` on floats returns a value in `[0, b)` for `b > 0`
(`a % b = a - b * floor(a / b)`) and `int()` truncates toward zero, which on
those non-negative values coincides with the floor. -/

/-- Python float modulo: `a % b = a - b * ⌊a / b⌋`. -/
def pyMod (a b : ℚ) : ℚ := a - b * (⌊a / b⌋ : ℚ)

/-- Python's `str.zfill` behaviour of the `{x:02d}` format spec on
non-negative values: left-pad with `'0'` to the requested width. -/
def zfill (w : Nat) (s : String) : String :=
  ⟨List.replicate (w - s.length) '0' ++ s.data⟩

def format_time (seconds : ℚ) : String :=
  let minutes : Int := ⌊seconds / 60⌋
  let secs : Int := ⌊pyMod seconds 60⌋
  let millis : Int := ⌊pyMod seconds 1 * 1000⌋
  intRepr minutes ++ ":" ++ zfill 2 (intRepr secs) ++ "." ++ zfill 3 (intRepr millis)

theorem pyMod_nonneg (a : ℚ) {b : ℚ} (hb : 0 < b) : 0 ≤ pyMod a b := by
  have h := Int.floor_le (a / b)
  have : (⌊a / b⌋ : ℚ) * b ≤ a := by
    rw [← le_div_iff₀ hb] at *
    exact h
  unfold pyMod; linarith

theorem pyMod_lt (a : ℚ) {b : ℚ} (hb : 0 < b) : pyMod a b < b := by
  have h := Int.lt_floor_add_one (a / b)
  have : a < ((⌊a / b⌋ : ℚ) + 1) * b := by
    rw [← div_lt_iff₀ hb]
    exact h
  unfold pyMod; nlinarith

theorem floor_pyMod_sixty_lt (a : ℚ) : (⌊pyMod a 60⌋).toNat < 60 := by
  have h1 := pyMod_nonneg a (b := 60) (by norm_num)
  have h2 := pyMod_lt a (b := 60) (by norm_num)
  have hf1 : (0 : Int) ≤ ⌊pyMod a 60⌋ := Int.floor_nonneg.mpr h1
  have hf2 : ⌊pyMod a 60⌋ < 60 := by
    have := Int.floor_le_floor h2.le
    have h60 : ⌊(60 : ℚ)⌋ = 60 := by norm_num
    have := Int.floor_lt.mpr (by push_cast; linarith : pyMod a 60 < ((60 : Int) : ℚ))
    exact this
  omega

theorem floor_millis_lt (a : ℚ) : (⌊pyMod a 1 * 1000⌋).toNat < 1000 := by
  have h1 := pyMod_nonneg a (b := 1) (by norm_num)
  have h2 := pyMod_lt a (b := 1) (by norm_num)
  have hf1 : (0 : Int) ≤ ⌊pyMod a 1 * 1000⌋ := Int.floor_nonneg.mpr (by nlinarith)
  have hf2 : ⌊pyMod a 1 * 1000⌋ < 1000 := by
    exact Int.floor_lt.mpr (by push_cast; nlinarith)
  omega

theorem zfill_length (w : Nat) (s : String) :
    (zfill w s).length = max w s.length := by
  unfold zfill
  show (List.replicate (w - s.length) '0' ++ s.data).length = max w s.length
  rw [List.length_append, List.length_replicate]
  have hs : s.length = s.data.length := rfl
  omega

set_option maxRecDepth 8000 in
theorem natRepr_length_le_two : ∀ n : Nat, n < 100 → (natRepr n).length ≤ 2 := by
  decide

set_option maxRecDepth 80000 in
theorem natRepr_length_le_three : ∀ n : Nat, n < 1000 → (natRepr n).length ≤ 3 := by
  decide

theorem intRepr_ofNonneg {i : Int} (h : 0 ≤ i) : intRepr i = natRepr i.toNat := by
  unfold intRepr
  rw [if_neg (by omega)]

theorem format_time_eval {q : ℚ} {m s ms : Int}
    (hm : ⌊q / 60⌋ = m) (hs : ⌊pyMod q 60⌋ = s) (hms : ⌊pyMod q 1 * 1000⌋ = ms) :
    format_time q =
      intRepr m ++ ":" ++ zfill 2 (intRepr s) ++ "." ++ zfill 3 (intRepr ms) := by
  simp only [format_time, hm, hs, hms]

theorem format_time_shape_of_nonneg (q : ℚ) (hq : 0 ≤ q) :
    format_time q =
        natRepr (⌊q / 60⌋).toNat ++ ":" ++ zfill 2 (natRepr (⌊pyMod q 60⌋).toNat) ++ "." ++
          zfill 3 (natRepr (⌊pyMod q 1 * 1000⌋).toNat)
      ∧ (⌊pyMod q 60⌋).toNat < 60
      ∧ (⌊pyMod q 1 * 1000⌋).toNat < 1000
      ∧ (zfill 2 (natRepr (⌊pyMod q 60⌋).toNat)).length = 2
      ∧ (zfill 3 (natRepr (⌊pyMod q 1 * 1000⌋).toNat)).length = 3
      ∧ (0 < (⌊q / 60⌋).toNat → (natRepr (⌊q / 60⌋).toNat).data.head? ≠ some '0') := by
  have hm0 : (0 : Int) ≤ ⌊q / 60⌋ :=
    Int.floor_nonneg.mpr (div_nonneg hq (by norm_num))
  have hs0 : (0 : Int) ≤ ⌊pyMod q 60⌋ :=
    Int.floor_nonneg.mpr (pyMod_nonneg q (by norm_num))
  have hms0 : (0 : Int) ≤ ⌊pyMod q 1 * 1000⌋ :=
    Int.floor_nonneg.mpr (by nlinarith [pyMod_nonneg q (b := 1) one_pos])
  refine ⟨?_, floor_pyMod_sixty_lt q, floor_millis_lt q, ?_, ?_, ?_⟩
  · simp only [format_time]
    rw [intRepr_ofNonneg hm0, intRepr_ofNonneg hs0, intRepr_ofNonneg hms0]
  · rw [zfill_length]
    have h1 := floor_pyMod_sixty_lt q
    have h2 := natRepr_length_le_two _ (by omega : (⌊pyMod q 60⌋).toNat < 100)
    omega
  · rw [zfill_length]
    have h1 := floor_millis_lt q
    have h2 := natRepr_length_le_three _ h1
    omega
  · intro h
    exact natRepr_head_ne_zero h

/-- `C8`: the time formatter satisfies `format(83.456) == "1:23.456"`,
`format(5.0) == "0:05.000"` and `format(0.0) == "0:00.000"`; in general, for
non-negative seconds it renders minutes without leading zero (decimal, no
padding), then two-digit seconds, then three-digit milliseconds.  (Python
floats are modelled as exact rationals.) -/
theorem claim_C8_format_time :
    (∀ q : ℚ, 0 ≤ q →
      format_time q =
          natRepr (⌊q / 60⌋).toNat ++ ":" ++ zfill 2 (natRepr (⌊pyMod q 60⌋).toNat) ++ "." ++
            zfill 3 (natRepr (⌊pyMod q 1 * 1000⌋).toNat)
        ∧ (⌊pyMod q 60⌋).toNat < 60
        ∧ (⌊pyMod q 1 * 1000⌋).toNat < 1000
        ∧ (zfill 2 (natRepr (⌊pyMod q 60⌋).toNat)).length = 2
        ∧ (zfill 3 (natRepr (⌊pyMod q 1 * 1000⌋).toNat)).length = 3
        ∧ (0 < (⌊q / 60⌋).toNat → (natRepr (⌊q / 60⌋).toNat).data.head? ≠ some '0'))
    ∧ format_time ((83456 : ℚ) / 1000) = "1:23.456"
    ∧ format_time 5 = "0:05.000"
    ∧ format_time 0 = "0:00.000" := by
  refine ⟨format_time_shape_of_nonneg, ?_, ?_, ?_⟩
  · have hm : ⌊(83456 : ℚ) / 1000 / 60⌋ = (1 : Int) :=
      Int.floor_eq_iff.mpr (by norm_num)
    have hs : ⌊pyMod ((83456 : ℚ) / 1000) 60⌋ = (23 : Int) := by
      rw [pyMod, hm]
      exact Int.floor_eq_iff.mpr (by norm_num)
    have hms : ⌊pyMod ((83456 : ℚ) / 1000) 1 * 1000⌋ = (456 : Int) := by
      have h1 : ⌊(83456 : ℚ) / 1000 / 1⌋ = (83 : Int) :=
        Int.floor_eq_iff.mpr (by norm_num)
      rw [pyMod, h1]
      exact Int.floor_eq_iff.mpr (by norm_num)
    rw [format_time_eval hm hs hms]
    decide
  · have hm : ⌊(5 : ℚ) / 60⌋ = (0 : Int) := Int.floor_eq_iff.mpr (by norm_num)
    have hs : ⌊pyMod (5 : ℚ) 60⌋ = (5 : Int) := by
      rw [pyMod, hm]
      exact Int.floor_eq_iff.mpr (by norm_num)
    have hms : ⌊pyMod (5 : ℚ) 1 * 1000⌋ = (0 : Int) := by
      have h1 : ⌊(5 : ℚ) / 1⌋ = (5 : Int) := Int.floor_eq_iff.mpr (by norm_num)
      rw [pyMod, h1]
      exact Int.floor_eq_iff.mpr (by norm_num)
    rw [format_time_eval hm hs hms]
    decide
  · have hm : ⌊(0 : ℚ) / 60⌋ = (0 : Int) := Int.floor_eq_iff.mpr (by norm_num)
    have hs : ⌊pyMod (0 : ℚ) 60⌋ = (0 : Int) := by
      rw [pyMod, hm]
      exact Int.floor_eq_iff.mpr (by norm_num)
    have hms : ⌊pyMod (0 : ℚ) 1 * 1000⌋ = (0 : Int) := by
      have h1 : ⌊(0 : ℚ) / 1⌋ = (0 : Int) := Int.floor_eq_iff.mpr (by norm_num)
      rw [pyMod, h1]
      exact Int.floor_eq_iff.mpr (by norm_num)
    rw [format_time_eval hm hs hms]
    decide

/-- Witness for `C8` at the concrete input `q = 61.5`. -/
theorem claim_C8_format_time_witness :
    (0 : ℚ) ≤ 123 / 2 ∧
      (format_time ((123 : ℚ) / 2) =
          natRepr (⌊(123 : ℚ) / 2 / 60⌋).toNat ++ ":" ++
            zfill 2 (natRepr (⌊pyMod ((123 : ℚ) / 2) 60⌋).toNat) ++ "." ++
            zfill 3 (natRepr (⌊pyMod ((123 : ℚ) / 2) 1 * 1000⌋).toNat)
        ∧ (⌊pyMod ((123 : ℚ) / 2) 60⌋).toNat < 60
        ∧ (⌊pyMod ((123 : ℚ) / 2) 1 * 1000⌋).toNat < 1000
        ∧ (zfill 2 (natRepr (⌊pyMod ((123 : ℚ) / 2) 60⌋).toNat)).length = 2
        ∧ (zfill 3 (natRepr (⌊pyMod ((123 : ℚ) / 2) 1 * 1000⌋).toNat)).length = 3
        ∧ (0 < (⌊(123 : ℚ) / 2 / 60⌋).toNat →
            (natRepr (⌊(123 : ℚ) / 2 / 60⌋).toNat).data.head? ≠ some '0')) :=
  ⟨by norm_num, claim_C8_format_time.1 ((123 : ℚ) / 2) (by norm_num)⟩

/-- `C10`: the time formatter has no hours unit: every output has the shape
`minutes:SS.mmm`; for inputs of 3600 seconds or more the minutes field is at
least 60 (e.g. `format(3600.0) = "60:00.000"`). -/
theorem claim_C10_no_hours :
    (∀ q : ℚ, 3600 ≤ q →
        (60 : Int) ≤ ⌊q / 60⌋ ∧ 60 ≤ (⌊q / 60⌋).toNat ∧
        format_time q =
          natRepr (⌊q / 60⌋).toNat ++ ":" ++ zfill 2 (natRepr (⌊pyMod q 60⌋).toNat) ++ "." ++
            zfill 3 (natRepr (⌊pyMod q 1 * 1000⌋).toNat))
    ∧ format_time 3600 = "60:00.000"
    ∧ (∀ q : ℚ, format_time q =
        intRepr ⌊q / 60⌋ ++ ":" ++ zfill 2 (intRepr ⌊pyMod q 60⌋) ++ "." ++
          zfill 3 (intRepr ⌊pyMod q 1 * 1000⌋)) := by
  refine ⟨?_, ?_, fun q => rfl⟩
  · intro q hq
    have hm : (60 : Int) ≤ ⌊q / 60⌋ := by
      rw [Int.le_floor]
      rw [le_div_iff₀ (by norm_num : (0 : ℚ) < 60)]
      push_cast
      linarith
    refine ⟨hm, by omega, ?_⟩
    exact (format_time_shape_of_nonneg q (by linarith)).1
  · have hm : ⌊(3600 : ℚ) / 60⌋ = (60 : Int) := Int.floor_eq_iff.mpr (by norm_num)
    have hs : ⌊pyMod (3600 : ℚ) 60⌋ = (0 : Int) := by
      rw [pyMod, hm]
      exact Int.floor_eq_iff.mpr (by norm_num)
    have hms : ⌊pyMod (3600 : ℚ) 1 * 1000⌋ = (0 : Int) := by
      have h1 : ⌊(3600 : ℚ) / 1⌋ = (3600 : Int) := Int.floor_eq_iff.mpr (by norm_num)
      rw [pyMod, h1]
      exact Int.floor_eq_iff.mpr (by norm_num)
    rw [format_time_eval hm hs hms]
    decide

/-- Witness for `C10` at the concrete input `q = 3661`. -/
theorem claim_C10_no_hours_witness :
    (3600 : ℚ) ≤ 3661 ∧
      ((60 : Int) ≤ ⌊(3661 : ℚ) / 60⌋ ∧ 60 ≤ (⌊(3661 : ℚ) / 60⌋).toNat ∧
        format_time (3661 : ℚ) =
          natRepr (⌊(3661 : ℚ) / 60⌋).toNat ++ ":" ++
            zfill 2 (natRepr (⌊pyMod (3661 : ℚ) 60⌋).toNat) ++ "." ++
            zfill 3 (natRepr (⌊pyMod (3661 : ℚ) 1 * 1000⌋).toNat)) :=
  ⟨by norm_num, claim_C10_no_hours.1 (3661 : ℚ) (by norm_num)⟩

/-! ### Data model — labels, laps, session

A label (`LabelManager` docstring and `add_group`) is a dict with `name`,
`color` (RGBA), optional `desc`, `is_default` and `auto_startstop`; lap labels
additionally carry a `group` key (`TimerScreen._add_lap` sets
`label_copy['group']`), which may be absent for labels written back by
`refresh_laps_for_label`, hence `Option`.  A lap (`TimerScreen._add_lap`) is
`{"t": time, "lbl": label, "type": "Start"|"Stop"|None}` plus an optional
`"note"`.  The per-label-name start/stop toggle dict
(`TimerScreen.label_startstop_state`) is modelled as an insertion-ordered
association list with Python dict update semantics. -/

inductive LapType where
  | start : LapType
  | stop : LapType
deriving DecidableEq, Repr

structure Lab where
  name : String
  color : List ℚ
  desc : Option String
  is_default : Bool
  auto_startstop : Bool
  group : Option String
deriving DecidableEq, Repr

structure Lap where
  t : ℚ
  lbl : Lab
  type : Option LapType
  note : Option String
deriving DecidableEq, Repr

/-- `Dict[str, bool]`: insertion-ordered association list, keys unique. -/
abbrev ToggleMap := List (String × Bool)

/-- `m.get(k, d)` on a Python dict. -/
def lookupD (m : ToggleMap) (k : String) (d : Bool) : Bool :=
  match m.find? (fun p => p.1 = k) with
  | some p => p.2
  | none => d

/-- `m.get(k)` on a Python dict (`None` when absent). -/
def lookupOpt (m : ToggleMap) (k : String) : Option Bool :=
  (m.find? (fun p => p.1 = k)).map Prod.snd

/-- `m[k] = v` on a Python dict: update in place if the key exists, else
append at the end (Python 3.7+ insertion order). -/
def setKey : ToggleMap → String → Bool → ToggleMap
  | [], k, v => [(k, v)]
  | (k', v') :: rest, k, v =>
      if k' = k then (k, v) :: rest else (k', v') :: setKey rest k v

/-- `TimerScreen` session state: elapsed time, lap list (position 0 = most
recent) and the per-label-name toggle dict.  The `running` flag and the UI
widgets are presentation state and are not modelled. -/
structure Session where
  time : ℚ
  laps : List Lap
  toggle : ToggleMap
deriving DecidableEq, Repr

/-- Fresh session (`TimerScreen.__init__`). -/
def initSession : Session := { time := 0, laps := [], toggle := [] }

/-! ### Session operations — `src/screens/timer_screen.py` -/

/-- `TimerScreen._add_lap`: compute the lap type by the toggle rule (flip the
per-name boolean when the label has `auto_startstop`), prepend the new lap.
The chosen label (with its group already attached, as `label_copy`) is the
argument; UI bookkeeping is dropped. -/
def addLap (s : Session) (lbl : Lab) : Session :=
  let td : Option LapType × ToggleMap :=
    if lbl.auto_startstop then
      let isStart := ! lookupD s.toggle lbl.name false
      (some (if isStart then LapType.start else LapType.stop),
        setKey s.toggle lbl.name isStart)
    else (none, s.toggle)
  { s with
      laps := { t := s.time, lbl := lbl, type := td.1, note := none } :: s.laps,
      toggle := td.2 }

/-- Chronological replay loop of `TimerScreen._recalculate_startstop_states`:
processes a list of laps in the order given (callers pass the reversed,
i.e. oldest-first, lap list), threading the fresh toggle dict. -/
def replayAux (m : ToggleMap) : List Lap → List Lap × ToggleMap
  | [] => ([], m)
  | lap :: rest =>
      if lap.lbl.auto_startstop then
        let isStart := ! lookupD m lap.lbl.name false
        let m' := setKey m lap.lbl.name isStart
        let r := replayAux m' rest
        ({ lap with type := some (if isStart then LapType.start else LapType.stop) } :: r.1,
          r.2)
      else
        let r := replayAux m rest
        ({ lap with type := none } :: r.1, r.2)

/-- `TimerScreen._recalculate_startstop_states`: recompute every lap's type
and the toggle dict by a full chronological (oldest → newest) replay. -/
def recalc (s : Session) : Session :=
  let r := replayAux [] s.laps.reverse
  { s with laps := r.1.reverse, toggle := r.2 }

/-- `TimerScreen._reset`: clear time, laps and the toggle dict. -/
def reset (_s : Session) : Session := initSession

/-- `TimerScreen._on_lap_label_changed`, with the spinner's preceding
`lap["lbl"] = new_label` assignment: reassign the label of lap `i`, fix the
type locally (clear it for non-auto labels, assign a fresh toggled type when
it was `None`), then recompute everything. -/
def changeLapLabel (s : Session) (i : Nat) (newLbl : Lab) : Session :=
  match s.laps.get? i with
  | none => s
  | some lap =>
      let lap1 := { lap with lbl := newLbl }
      let fixed : Lap × ToggleMap :=
        if ! newLbl.auto_startstop then ({ lap1 with type := none }, s.toggle)
        else if lap1.type = none then
          let isStart := ! lookupD s.toggle newLbl.name false
          ({ lap1 with type := some (if isStart then LapType.start else LapType.stop) },
            setKey s.toggle newLbl.name isStart)
        else (lap1, s.toggle)
      recalc { s with laps := s.laps.set i fixed.1, toggle := fixed.2 }

/-- `TimerScreen.refresh_laps_for_label`: replace the embedded label snapshot
of every lap whose label has the given name by the current definition found
in `labels` (the active group's label list), then recompute. -/
def relabelByName (s : Session) (labels : List Lab) (name : String) : Session :=
  let laps' := s.laps.map fun lap =>
    if lap.lbl.name = name then
      match labels.find? (fun l => l.name = name) with
      | some u => { lap with lbl := u }
      | none => lap
    else lap
  recalc { s with laps := laps' }

/-- The note popup's save action: attach free text to lap `i`. -/
def setNote (s : Session) (i : Nat) (text : String) : Session :=
  match s.laps.get? i with
  | none => s
  | some lap => { s with laps := s.laps.set i { lap with note := some text } }

/-! ### Toggle-map and replay lemmas -/

theorem lookupOpt_setKey (m : ToggleMap) (k n : String) (v : Bool) :
    lookupOpt (setKey m k v) n = if k = n then some v else lookupOpt m n := by
  induction m with
  | nil =>
      by_cases h : k = n <;> simp [setKey, lookupOpt, List.find?, h]
  | cons p rest ih =>
      obtain ⟨k', v'⟩ := p
      by_cases hk : k' = k
      · subst hk
        by_cases h : k' = n <;> simp [setKey, lookupOpt, List.find?, h]
      · by_cases h : k' = n
        · subst h
          have : ¬ k = k' := fun hc => hk hc.symm
          simp [setKey, lookupOpt, List.find?, hk, this]
        · simp only [setKey, if_neg hk]
          by_cases hkn : k = n
          · subst hkn
            simpa [lookupOpt, List.find?, h] using ih
          · simpa [lookupOpt, List.find?, h, hkn] using ih

theorem lookupD_eq_lookupOpt (m : ToggleMap) (k : String) (d : Bool) :
    lookupD m k d = (lookupOpt m k).getD d := by
  unfold lookupD lookupOpt
  cases m.find? (fun p => p.1 = k) <;> simp

theorem replayAux_append (m : ToggleMap) (l₁ l₂ : List Lap) :
    replayAux m (l₁ ++ l₂) =
      ((replayAux m l₁).1 ++ (replayAux (replayAux m l₁).2 l₂).1,
        (replayAux (replayAux m l₁).2 l₂).2) := by
  induction l₁ generalizing m with
  | nil => simp [replayAux]
  | cons lap rest ih =>
      by_cases h : lap.lbl.auto_startstop = true <;>
        simp [replayAux, h, ih]

/-- The replay only rewrites `type` fields: labels are preserved pointwise. -/
theorem replayAux_lbl (m : ToggleMap) (l : List Lap) :
    ((replayAux m l).1.map Lap.lbl) = l.map Lap.lbl := by
  induction l generalizing m with
  | nil => simp [replayAux]
  | cons lap rest ih =>
      by_cases h : lap.lbl.auto_startstop = true <;>
        simp [replayAux, h, ih]

/-- Replaying an already replayed lap list changes nothing: the branch taken
for each lap depends only on its label, which the first replay preserved, so
the second replay assigns identical types and threads identical maps. -/
theorem replayAux_idem (m : ToggleMap) (l : List Lap) :
    replayAux m ((replayAux m l).1) = replayAux m l := by
  induction l generalizing m with
  | nil => simp [replayAux]
  | cons lap rest ih =>
      by_cases h : lap.lbl.auto_startstop = true
      · simp only [replayAux, h, if_true, if_pos]
        simp [replayAux, h, ih]
      · simp only [replayAux, h]
        simp [replayAux, h, ih]

/-- `C3`: `recompute_toggle_states` is idempotent — running it twice yields a
session (laps with their types, and the toggle map) identical to running it
once, for every lap list and toggle map. -/
theorem claim_C3_recalc_idempotent (s : Session) : recalc (recalc s) = recalc s := by
  simp [recalc, List.reverse_reverse, replayAux_idem]

/-! ### The re-derivability invariant (C1) -/

/-- The consistency contract of §3 of the spec: `startstop_toggle` is exactly
the map produced by a full chronological (oldest → newest) replay of `laps`. -/
def startstopInv (s : Session) : Prop :=
  s.toggle = (replayAux [] s.laps.reverse).2

instance (s : Session) : Decidable (startstopInv s) := by
  unfold startstopInv; infer_instance

/-- Session states reachable from a fresh session through the mutating
operations of the timer screen. -/
inductive Reachable : Session → Prop where
  | init : Reachable initSession
  | add {s} (lbl : Lab) : Reachable s → Reachable (addLap s lbl)
  | change {s} (i : Nat) (lbl : Lab) : Reachable s → Reachable (changeLapLabel s i lbl)
  | reset {s} : Reachable s → Reachable (reset s)
  | relabel {s} (labels : List Lab) (name : String) :
      Reachable s → Reachable (relabelByName s labels name)
  | note {s} (i : Nat) (text : String) : Reachable s → Reachable (setNote s i text)

theorem inv_recalc (s : Session) : startstopInv (recalc s) := by
  unfold startstopInv recalc
  simp only [List.reverse_reverse]
  rw [replayAux_idem]

theorem inv_addLap {s : Session} (h : startstopInv s) (lbl : Lab) :
    startstopInv (addLap s lbl) := by
  unfold startstopInv at *
  by_cases ha : lbl.auto_startstop = true <;>
    simp [addLap, ha, replayAux_append, replayAux, ← h]

theorem inv_changeLapLabel {s : Session} (h : startstopInv s) (i : Nat) (lbl : Lab) :
    startstopInv (changeLapLabel s i lbl) := by
  unfold changeLapLabel
  cases hg : s.laps.get? i with
  | none => exact h
  | some lap => exact inv_recalc _

theorem inv_reset (s : Session) : startstopInv (reset s) := rfl

theorem inv_relabelByName (s : Session) (labels : List Lab) (name : String) :
    startstopInv (relabelByName s labels name) :=
  inv_recalc _

/-- The replayed toggle map depends only on the labels of the laps. -/
theorem replayAux_snd_congr (m : ToggleMap) :
    ∀ (l₁ l₂ : List Lap), l₁.map Lap.lbl = l₂.map Lap.lbl →
      (replayAux m l₁).2 = (replayAux m l₂).2 := by
  intro l₁
  induction l₁ generalizing m with
  | nil =>
      intro l₂ h
      have : l₂ = [] := by
        cases l₂ with
        | nil => rfl
        | cons b t => simp at h
      subst this; rfl
  | cons a t ih =>
      intro l₂ h
      cases l₂ with
      | nil => simp at h
      | cons b t₂ =>
          simp only [List.map_cons, List.cons.injEq] at h
          obtain ⟨hab, ht⟩ := h
          by_cases hauto : a.lbl.auto_startstop = true <;>
            simp [replayAux, hauto, ← hab, ih m t₂ ht,
              ih (setKey m a.lbl.name (! lookupD m a.lbl.name false)) t₂ ht]

theorem set_self_of_get? {α : Type} :
    ∀ (l : List α) (i : Nat) (a : α), l.get? i = some a → l.set i a = l := by
  intro l
  induction l with
  | nil => intro i a h; cases h
  | cons x xs ih =>
      intro i a h
      cases i with
      | zero =>
          simp only [List.get?] at h
          injection h with h
          simp [List.set, h]
      | succ j =>
          simp only [List.get?] at h
          simp [List.set, ih j a h]

theorem inv_setNote {s : Session} (h : startstopInv s) (i : Nat) (text : String) :
    startstopInv (setNote s i text) := by
  unfold setNote
  cases hg : s.laps.get? i with
  | none => exact h
  | some lap =>
      unfold startstopInv at *
      have hmap : (s.laps.set i { lap with note := some text }).map Lap.lbl
          = s.laps.map Lap.lbl := by
        rw [List.map_set]
        exact set_self_of_get? _ _ _ (by rw [List.get?_map, hg]; rfl)
      have hrev : ((s.laps.set i { lap with note := some text }).reverse).map Lap.lbl
          = (s.laps.reverse).map Lap.lbl := by
        rw [List.map_reverse, List.map_reverse, hmap]
      rw [replayAux_snd_congr [] _ _ hrev]
      exact h

/-- `C1`: every reachable session state satisfies the re-derivability
invariant — `startstop_toggle` equals the map obtained by a full
chronological replay of the lap list — and each mutating operation
(`add_lap`, `change_lap_label`, `reset`, `relabel_by_name`) preserves it. -/
theorem claim_C1_toggle_rederivable :
    (∀ s : Session, Reachable s → startstopInv s)
    ∧ (∀ (s : Session) (lbl : Lab), startstopInv s → startstopInv (addLap s lbl))
    ∧ (∀ (s : Session) (i : Nat) (lbl : Lab), startstopInv s →
        startstopInv (changeLapLabel s i lbl))
    ∧ (∀ s : Session, startstopInv (reset s))
    ∧ (∀ (s : Session) (labels : List Lab) (name : String),
        startstopInv (relabelByName s labels name)) := by
  refine ⟨?_, fun s lbl h => inv_addLap h lbl,
    fun s i lbl h => inv_changeLapLabel h i lbl, inv_reset, inv_relabelByName⟩
  intro s h
  induction h with
  | init => rfl
  | add lbl _ ih => exact inv_addLap ih lbl
  | change i lbl _ ih => exact inv_changeLapLabel ih i lbl
  | reset _ _ => exact inv_reset _
  | relabel labels name _ _ => exact inv_relabelByName _ labels name
  | note i text _ ih => exact inv_setNote ih i text

/-- An auto-start/stop label, used as concrete input for witnesses. -/
def runLab : Lab :=
  { name := "Run", color := [1, 0, 0, 1], desc := none, is_default := false,
    auto_startstop := true, group := some "Default" }

/-- A non-auto label, used as concrete input for witnesses. -/
def defaultLab : Lab :=
  { name := "Default", color := [0, 0, 0, 1], desc := none,
    is_default := true, auto_startstop := false, group := some "Default" }

/-- Witness for `C1`: a concrete reachable two-lap state is reachable and
satisfies the invariant. -/
theorem claim_C1_toggle_rederivable_witness :
    Reachable (addLap (addLap initSession defaultLab) runLab)
      ∧ startstopInv (addLap (addLap initSession defaultLab) runLab) :=
  ⟨Reachable.add runLab (Reachable.add defaultLab Reachable.init),
    claim_C1_toggle_rederivable.1 _
      (Reachable.add runLab (Reachable.add defaultLab Reachable.init))⟩

/-! ### Start/Stop alternation (C2) -/

/-- Laps carrying an auto-start/stop label with the given name. -/
def autoFor (n : String) (lap : Lap) : Bool :=
  lap.lbl.auto_startstop && lap.lbl.name == n

/-- A session produced by a sequence of `add_lap` calls from a fresh session. -/
def runAdds (adds : List Lab) : Session :=
  adds.foldl addLap initSession

/-- The strictly alternating type pattern, starting with `Start` when `b`. -/
def altTypes : Nat → Bool → List (Option LapType)
  | 0, _ => []
  | k+1, b => some (if b then LapType.start else LapType.stop) :: altTypes k (!b)

theorem parity_succ (c : Nat) :
    decide ((c + 1) % 2 = 1) = ! decide (c % 2 = 1) := by
  rcases Nat.mod_two_eq_zero_or_one c with h | h <;> simp [Nat.add_mod, h]

theorem lookupD_setKey (m : ToggleMap) (k n : String) (v d : Bool) :
    lookupD (setKey m k v) n d = if k = n then v else lookupD m n d := by
  rw [lookupD_eq_lookupOpt, lookupOpt_setKey]
  by_cases h : k = n <;> simp [h, lookupD_eq_lookupOpt]

theorem altTypes_snoc (k : Nat) (b : Bool) :
    altTypes (k + 1) b = altTypes k b ++
      [some (if Bool.xor b (decide (k % 2 = 1)) then LapType.start else LapType.stop)] := by
  induction k generalizing b with
  | zero => simp [altTypes]
  | succ k ih =>
      have step : altTypes (k + 2) b = some (if b then LapType.start else LapType.stop)
          :: altTypes (k + 1) (!b) := rfl
      rw [step, ih (!b)]
      have hx : Bool.xor (!b) (decide (k % 2 = 1)) = Bool.xor b (decide ((k + 1) % 2 = 1)) := by
        rw [parity_succ]
        cases b <;> cases hd : decide (k % 2 = 1) <;> rfl
      rw [hx]
      rfl

/-- Core alternation invariant: after any `add_lap` sequence from a fresh
session, the types of the auto-laps named `n`, oldest first, form the
alternating pattern, and the stored toggle boolean is their count's parity. -/
theorem runAdds_alt (adds : List Lab) (n : String) :
    (((runAdds adds).laps.reverse.filter (autoFor n)).map Lap.type
        = altTypes ((runAdds adds).laps.reverse.filter (autoFor n)).length true)
    ∧ lookupD (runAdds adds).toggle n false
        = decide (((runAdds adds).laps.reverse.filter (autoFor n)).length % 2 = 1) := by
  induction adds using List.reverseRecOn with
  | nil => exact ⟨rfl, rfl⟩
  | append_singleton adds lbl ih =>
      obtain ⟨ih1, ih2⟩ := ih
      have hrun : runAdds (adds ++ [lbl]) = addLap (runAdds adds) lbl := by
        simp [runAdds, List.foldl_append]
      set s := runAdds adds with hs
      by_cases hauto : lbl.auto_startstop = true
      · by_cases hname : lbl.name = n
        · -- the new lap extends the alternating block for `n`
          subst hname
          have hfilter :
              (addLap s lbl).laps.reverse.filter (autoFor lbl.name)
                = s.laps.reverse.filter (autoFor lbl.name) ++
                  [{ t := s.time, lbl := lbl,
                      type := some (if ! lookupD s.toggle lbl.name false
                        then LapType.start else LapType.stop),
                      note := none }] := by
            simp [addLap, hauto, List.filter_append, autoFor]
          rw [hrun]
          constructor
          · rw [hfilter, List.map_append, List.length_append, ih1]
            simp only [List.map_cons, List.map_nil, List.length_cons, List.length_nil]
            rw [altTypes_snoc, ih2]
            cases hd : decide ((s.laps.reverse.filter (autoFor lbl.name)).length % 2 = 1) <;>
              simp [hd]
          · have htog : (addLap s lbl).toggle
                = setKey s.toggle lbl.name (! lookupD s.toggle lbl.name false) := by
              simp [addLap, hauto]
            rw [hfilter, htog, lookupD_setKey, if_pos rfl, List.length_append, ih2]
            simp [parity_succ]
        · -- auto label with a different name: the `n`-block is untouched
          have hfilter :
              (addLap s lbl).laps.reverse.filter (autoFor n)
                = s.laps.reverse.filter (autoFor n) := by
            simp [addLap, hauto, List.filter_append, autoFor, hname]
          rw [hrun]
          refine ⟨by rw [hfilter]; exact ih1, ?_⟩
          have htog : (addLap s lbl).toggle
              = setKey s.toggle lbl.name (! lookupD s.toggle lbl.name false) := by
            simp [addLap, hauto]
          rw [hfilter, htog, lookupD_setKey, if_neg hname]
          exact ih2
      · -- non-auto label: neither the block nor the toggle changes
        have hfilter :
            (addLap s lbl).laps.reverse.filter (autoFor n)
              = s.laps.reverse.filter (autoFor n) := by
          simp [addLap, hauto, List.filter_append, autoFor]
        have htog : (addLap s lbl).toggle = s.toggle := by
          simp [addLap, hauto]
        rw [hrun]
        exact ⟨by rw [hfilter]; exact ih1, by rw [hfilter, htog]; exact ih2⟩

/-- `C2`: for any sequence of `add_lap` calls from an empty session and any
label name, the types of the laps carrying an auto-start/stop label with
that name strictly alternate `Start, Stop, Start, …` in chronological
(oldest-to-newest) order, regardless of interleaved laps of other labels. -/
theorem claim_C2_alternation (adds : List Lab) (n : String) :
    ((runAdds adds).laps.reverse.filter (autoFor n)).map Lap.type
      = altTypes ((runAdds adds).laps.reverse.filter (autoFor n)).length true :=
  (runAdds_alt adds n).1

/-! ### Toggle-map entries after recomputation (C9) -/

theorem replayAux_cons_auto {lap : Lap} (h : lap.lbl.auto_startstop = true)
    (m : ToggleMap) (rest : List Lap) :
    replayAux m (lap :: rest)
      = ({ lap with type := some (if ! lookupD m lap.lbl.name false
              then LapType.start else LapType.stop) }
          :: (replayAux (setKey m lap.lbl.name (! lookupD m lap.lbl.name false)) rest).1,
         (replayAux (setKey m lap.lbl.name (! lookupD m lap.lbl.name false)) rest).2) := by
  cases hls : lookupD m lap.lbl.name false <;> simp [replayAux, h, hls]

theorem replayAux_cons_nonauto {lap : Lap} (h : ¬ lap.lbl.auto_startstop = true)
    (m : ToggleMap) (rest : List Lap) :
    replayAux m (lap :: rest)
      = ({ lap with type := none } :: (replayAux m rest).1, (replayAux m rest).2) := by
  simp [replayAux, h]

/-- After a replay, the toggle entry for `n` is: absent when it was absent
initially and no auto-lap named `n` occurred; otherwise it is determined by
the newest (first in the reversed, newest-first output) auto-lap named `n`,
whose assigned type is `Start` exactly when the entry is `true`. -/
theorem replay_find (n : String) :
    ∀ (l : List Lap) (m : ToggleMap),
      (lookupOpt (replayAux m l).2 n = none ↔
        (lookupOpt m n = none ∧ (replayAux m l).1.reverse.find? (autoFor n) = none))
      ∧ ∀ b, lookupOpt (replayAux m l).2 n = some b →
          ((replayAux m l).1.reverse.find? (autoFor n) = none ∧ lookupOpt m n = some b)
          ∨ ∃ lap, (replayAux m l).1.reverse.find? (autoFor n) = some lap
              ∧ lap.type = some (if b then LapType.start else LapType.stop) := by
  intro l
  induction l with
  | nil =>
      intro m
      exact ⟨by simp [replayAux], fun b hb => Or.inl ⟨by simp [replayAux], by
        simpa [replayAux] using hb⟩⟩
  | cons lap rest ih =>
      intro m
      by_cases hauto : lap.lbl.auto_startstop = true
      · have hstep := replayAux_cons_auto hauto m rest
        set isStart := ! lookupD m lap.lbl.name false with hisStart
        set m' := setKey m lap.lbl.name isStart with hm'
        set lap' : Lap := { lap with
          type := some (if isStart then LapType.start else LapType.stop) } with hlap'
        obtain ⟨ih1, ih2⟩ := ih m'
        have hrev : (lap' :: (replayAux m' rest).1).reverse
            = (replayAux m' rest).1.reverse ++ [lap'] := by
          simp
        by_cases hname : lap.lbl.name = n
        · -- this lap toggles `n` itself
          have hlm' : lookupOpt m' n = some isStart := by
            rw [hm', lookupOpt_setKey, if_pos hname]
          have hpred : autoFor n lap' = true := by
            simp [autoFor, hlap', hauto, hname]
          have hfind_app : ∀ (pref : List Lap),
              pref.find? (autoFor n) = none →
                (pref ++ [lap']).find? (autoFor n) = some lap' := by
            intro pref hp
            rw [List.find?_append, hp, Option.none_or]
            simp [List.find?_cons, hpred]
          constructor
          · rw [hstep]
            constructor
            · intro hnone
              have := (ih1.mp hnone).1
              rw [hlm'] at this
              cases this
            · rintro ⟨-, happ⟩
              rw [hrev, List.find?_append] at happ
              cases hx : (replayAux m' rest).1.reverse.find? (autoFor n) <;>
                simp [hx, List.find?_cons, hpred] at happ
          · intro b hb
            rw [hstep] at hb ⊢
            rcases ih2 b hb with ⟨hfe, hlb⟩ | ⟨lap0, hfind, htype⟩
            · right
              refine ⟨lap', ?_, ?_⟩
              · rw [hrev]
                exact hfind_app _ hfe
              · rw [hlm'] at hlb
                injection hlb with hlb
                rw [hlap', ← hlb]
            · right
              refine ⟨lap0, ?_, htype⟩
              rw [hrev, List.find?_append, hfind]
              rfl
        · -- auto lap of a different name: passes through
          have hlm' : lookupOpt m' n = lookupOpt m n := by
            rw [hm', lookupOpt_setKey, if_neg hname]
          have hpred : autoFor n lap' = false := by
            simp [autoFor, hlap', hname]
          have happ : (lap' :: (replayAux m' rest).1).reverse.find? (autoFor n)
              = (replayAux m' rest).1.reverse.find? (autoFor n) := by
            rw [hrev, List.find?_append]
            simp [List.find?_cons, hpred]
          rw [hstep]
          rw [hlm'] at ih1 ih2
          exact ⟨by rw [happ]; exact ih1, fun b hb => by
            rw [happ]; exact ih2 b hb⟩
      · -- non-auto lap: type cleared, map untouched, never matches
        have hstep := replayAux_cons_nonauto hauto m rest
        set lap' : Lap := { lap with type := none } with hlap'
        obtain ⟨ih1, ih2⟩ := ih m
        have hpred : autoFor n lap' = false := by
          simp [autoFor, hlap', hauto]
        have happ : (lap' :: (replayAux m rest).1).reverse.find? (autoFor n)
            = (replayAux m rest).1.reverse.find? (autoFor n) := by
          rw [List.reverse_cons, List.find?_append]
          simp [List.find?_cons, hpred]
        rw [hstep]
        exact ⟨by rw [happ]; exact ih1, fun b hb => by rw [happ]; exact ih2 b hb⟩

theorem exists_mem_lbl_iff {l₁ l₂ : List Lap}
    (h : l₁.map Lap.lbl = l₂.map Lap.lbl) (P : Lab → Prop) :
    (∃ x ∈ l₁, P x.lbl) ↔ ∃ x ∈ l₂, P x.lbl := by
  constructor
  · rintro ⟨x, hx, px⟩
    have hmem : x.lbl ∈ l₂.map Lap.lbl := h ▸ List.mem_map_of_mem _ hx
    obtain ⟨y, hy, hyx⟩ := List.mem_map.mp hmem
    exact ⟨y, hy, hyx ▸ px⟩
  · rintro ⟨x, hx, px⟩
    have hmem : x.lbl ∈ l₁.map Lap.lbl := h.symm ▸ List.mem_map_of_mem _ hx
    obtain ⟨y, hy, hyx⟩ := List.mem_map.mp hmem
    exact ⟨y, hy, hyx ▸ px⟩

theorem recalc_laps_lbl (s : Session) :
    (recalc s).laps.map Lap.lbl = s.laps.map Lap.lbl := by
  show ((replayAux [] s.laps.reverse).1.reverse.map Lap.lbl) = s.laps.map Lap.lbl
  rw [List.map_reverse, replayAux_lbl, List.map_reverse, List.reverse_reverse]

/-- `C9`: after `recompute_toggle_states`, the toggle map has an entry exactly
for each label name occurring on at least one lap whose label has
`auto_startstop` (names used only by non-auto laps are absent), and the entry
is `true` iff the chronologically newest such lap (the first match in the
newest-first stored list) was assigned type `Start`. -/
theorem claim_C9_toggle_domain_and_value (s : Session) (n : String) :
    ((∃ b, lookupOpt (recalc s).toggle n = some b)
        ↔ ∃ lap ∈ s.laps, lap.lbl.auto_startstop = true ∧ lap.lbl.name = n)
    ∧ ∀ b, lookupOpt (recalc s).toggle n = some b →
        ∃ lap, (recalc s).laps.find? (autoFor n) = some lap
          ∧ lap.type = some (if b then LapType.start else LapType.stop) := by
  obtain ⟨h1, h2⟩ := replay_find n s.laps.reverse []
  have htog : (recalc s).toggle = (replayAux [] s.laps.reverse).2 := rfl
  have hlaps : (recalc s).laps = (replayAux [] s.laps.reverse).1.reverse := rfl
  have hmap : (replayAux [] s.laps.reverse).1.reverse.map Lap.lbl = s.laps.map Lap.lbl := by
    rw [← hlaps]
    exact recalc_laps_lbl s
  constructor
  · rw [htog]
    have hiff : lookupOpt (replayAux [] s.laps.reverse).2 n = none ↔
        (replayAux [] s.laps.reverse).1.reverse.find? (autoFor n) = none := by
      rw [h1]
      simp [lookupOpt]
    have hex : (∃ x ∈ (replayAux [] s.laps.reverse).1.reverse, autoFor n x = true)
        ↔ ∃ lap ∈ s.laps, lap.lbl.auto_startstop = true ∧ lap.lbl.name = n := by
      constructor
      · rintro ⟨x, hx, px⟩
        have px' : x.lbl.auto_startstop = true ∧ x.lbl.name = n := by
          simpa [autoFor] using px
        exact (exists_mem_lbl_iff hmap
          (fun lb => lb.auto_startstop = true ∧ lb.name = n)).mp ⟨x, hx, px'⟩
      · intro h
        obtain ⟨x, hx, px⟩ := (exists_mem_lbl_iff hmap
          (fun lb => lb.auto_startstop = true ∧ lb.name = n)).mpr h
        exact ⟨x, hx, by simp [autoFor, px.1, px.2]⟩
    rw [← hex]
    constructor
    · rintro ⟨b, hb⟩
      refine List.find?_isSome.mp ?_
      rw [Option.isSome_iff_ne_none]
      intro hc
      rw [hiff.mpr hc] at hb
      cases hb
    · intro h
      have hns := List.find?_isSome.mpr h
      rw [Option.isSome_iff_ne_none] at hns
      cases hb : lookupOpt (replayAux [] s.laps.reverse).2 n with
      | none => exact absurd (hiff.mp hb) hns
      | some b => exact ⟨b, rfl⟩
  · intro b hb
    rw [htog] at hb
    rcases h2 b hb with ⟨-, hcontra⟩ | ⟨lap, hfind, htype⟩
    · cases hcontra
    · exact ⟨lap, by rw [hlaps]; exact hfind, htype⟩

/-- Witness for `C9` at a concrete two-lap session. -/
theorem claim_C9_toggle_domain_and_value_witness :
    lookupOpt (recalc (runAdds [defaultLab, runLab])).toggle "Run" = some true
      ∧ ∃ lap, (recalc (runAdds [defaultLab, runLab])).laps.find? (autoFor "Run") = some lap
          ∧ lap.type = some (if true then LapType.start else LapType.stop) :=
  ⟨by decide,
    (claim_C9_toggle_domain_and_value (runAdds [defaultLab, runLab]) "Run").2 true (by decide)⟩

/-! ### Label store — `src/managers/label_manager.py`

Label groups are a Python dict from group name to label list; modelled as an
insertion-ordered association list.  Persistence (`_save_to_storage`) is
file I/O and is not modelled; the functions below return the boolean result
together with the successor in-memory state. -/

/-- `LabelManager` in-memory state: `groups`, active `group`, active `idx`. -/
structure LMState where
  groups : List (String × List Lab)
  group : String
  idx : Nat
deriving DecidableEq, Repr

/-- `name in self.groups` (dict key membership). -/
def keyMem (d : List (String × List Lab)) (k : String) : Bool :=
  d.any (fun p => p.1 == k)

/-- `self.groups[k]` (defaulting, only used after a membership check). -/
def dictGet (d : List (String × List Lab)) (k : String) : List Lab :=
  match d.find? (fun p => p.1 == k) with
  | some p => p.2
  | none => []

/-- `del self.groups[k]`: removes the (unique) entry with this key. -/
def dictDel (d : List (String × List Lab)) (k : String) : List (String × List Lab) :=
  d.eraseP (fun p => p.1 == k)

/-- `LabelManager.rename_group`: fails on empty/existing new name, missing old
name, or `old_name == "Default"`; otherwise moves the label list to the new
key (appended, as a fresh dict key), updates the active group, persists. -/
def renameGroup (st : LMState) (old nw : String) : Bool × LMState :=
  if nw == "" || keyMem st.groups nw || ! keyMem st.groups old then (false, st)
  else if old == "Default" then (false, st)
  else
    let labs := dictGet st.groups old
    let groups' := dictDel (st.groups ++ [(nw, labs)]) old
    let g' := if st.group == old then nw else st.group
    (true, { st with groups := groups', group := g' })

/-- `LabelManager.delete_group`: fails for `"Default"` or a missing name;
otherwise removes the group and, when it was active, falls back to
`("Default", 0)`. -/
def deleteGroup (st : LMState) (name : String) : Bool × LMState :=
  if name == "Default" || ! keyMem st.groups name then (false, st)
  else
    let groups' := dictDel st.groups name
    if st.group == name then
      (true, { groups := groups', group := "Default", idx := 0 })
    else
      (true, { st with groups := groups' })

/-- `LabelManager.add_group`: fails on empty or existing name, else appends a
group holding the single immutable Default label. -/
def addGroup (st : LMState) (name : String) : Bool × LMState :=
  if name != "" && ! keyMem st.groups name then
    (true, { st with groups := st.groups ++
      [(name, [{ name := "Default", color := [1/10, 1/10, 1/10, 1], desc := none,
                 is_default := true, auto_startstop := false, group := none }])] })
  else (false, st)

/-- `C5`: for every label-store state, deleting or renaming the group named
`"Default"` returns `False` and leaves the whole state (groups map, active
group, active index) unchanged, whatever the new name. -/
theorem claim_C5_default_group_protected (st : LMState) (nw : String) :
    renameGroup st "Default" nw = (false, st)
      ∧ deleteGroup st "Default" = (false, st) := by
  constructor
  · unfold renameGroup
    split
    · rfl
    · rw [if_pos]
      rfl
  · unfold deleteGroup
    rw [if_pos]
    rfl

/-! ### Unique save-state names — `src/managers/state_manager.py`

`StateManager._get_unique_save_name` probes `f"{base_name}({counter})"` for
`counter = 1, 2, …` until the name is not among the existing save names.
The probe loop is embedded with explicit fuel `existing.length + 1`;
`findFree_found` below shows this fuel always suffices (pigeonhole over the
pairwise-distinct candidate names), so the embedding computes exactly the
value of the unbounded Python `while` loop: the least free counter. -/

/-- `f"{base_name}({counter})"`. -/
def candName (base : String) (k : Nat) : String :=
  base ++ "(" ++ natRepr k ++ ")"

/-- The `while f"{base_name}({counter})" in existing_states: counter += 1`
loop, fuelled. -/
def findFree (existing : List String) (base : String) : Nat → Nat → Nat
  | 0, counter => counter
  | fuel+1, counter =>
      if candName base counter ∈ existing then findFree existing base fuel (counter + 1)
      else counter

/-- `StateManager._get_unique_save_name`. -/
def getUniqueSaveName (existing : List String) (base : String) : String :=
  if base ∈ existing then
    candName base (findFree existing base (existing.length + 1) 1)
  else base

/-- `StateManager.create_save_state`, at the level of the set of existing
snapshot names: returns the chosen unique name and the successor name set. -/
def createNamed (existing : List String) (base : String) : String × List String :=
  let nm := getUniqueSaveName existing base
  (nm, nm :: existing)

theorem string_eq_of_data {a b : String} (h : a.data = b.data) : a = b := by
  cases a; cases b; exact congrArg String.mk h

theorem candName_injective (base : String) : Function.Injective (candName base) := by
  intro j k h
  have hd := congrArg String.data h
  have hp1 : ("(" : String).data = ['('] := rfl
  have hp2 : (")" : String).data = [')'] := rfl
  simp only [candName, String.data_append, hp1, hp2, List.append_assoc] at hd
  have h2 := List.append_cancel_left hd
  have h3 : (natRepr j).data ++ [')'] = (natRepr k).data ++ [')'] := by
    simpa using h2
  have h4 := congrArg List.dropLast h3
  rw [List.dropLast_concat, List.dropLast_concat] at h4
  exact natRepr_injective (string_eq_of_data h4)

/-- Pigeonhole: if all candidate names below `k` are taken, `k` cannot exceed
the number of existing names by more than one. -/
theorem cand_pigeonhole {existing : List String} {base : String} {k : Nat}
    (hmin : ∀ j, 1 ≤ j → j < k → candName base j ∈ existing) :
    k ≤ existing.length + 1 := by
  by_contra hc
  push_neg at hc
  have hnodup : ((List.range (k - 1)).map (fun i => candName base (i + 1))).Nodup := by
    refine List.Nodup.map ?_ (List.nodup_range _)
    intro a b hab
    have := candName_injective base hab
    omega
  have hsub : ∀ x ∈ (List.range (k - 1)).map (fun i => candName base (i + 1)),
      x ∈ existing := by
    intro x hx
    obtain ⟨i, hi, rfl⟩ := List.mem_map.mp hx
    have := List.mem_range.mp hi
    exact hmin (i + 1) (by omega) (by omega)
  have hcard : ((List.range (k - 1)).map (fun i => candName base (i + 1))).toFinset.card
      ≤ existing.toFinset.card := by
    apply Finset.card_le_card
    intro x hx
    rw [List.mem_toFinset]
    exact hsub x (List.mem_toFinset.mp hx)
  rw [List.toFinset_card_of_nodup hnodup] at hcard
  have h2 := List.toFinset_card_le existing
  simp only [List.length_map, List.length_range] at hcard
  omega

/-- The fuelled probe returns the least free counter, given enough fuel. -/
theorem findFree_eq {existing : List String} {base : String} {k : Nat}
    (hfree : candName base k ∉ existing)
    (hmin : ∀ j, 1 ≤ j → j < k → candName base j ∈ existing) :
    ∀ (fuel counter : Nat), 1 ≤ counter → counter ≤ k → k ≤ counter + fuel →
      findFree existing base fuel counter = k := by
  intro fuel
  induction fuel with
  | zero =>
      intro counter h0 h1 h2
      have : counter = k := by omega
      rw [this, findFree]
  | succ fuel ih =>
      intro counter h0 h1 h2
      by_cases hck : counter = k
      · subst hck
        rw [findFree, if_neg hfree]
      · have hc : candName base counter ∈ existing := hmin counter h0 (by omega)
        rw [findFree, if_pos hc]
        exact ih (counter + 1) (by omega) (by omega) (by omega)

/-- The fuel `existing.length + 1` is always enough: the probe stops at a
counter whose candidate name is free (so the Python loop terminates there). -/
theorem findFree_found (existing : List String) (base : String) :
    candName base (findFree existing base (existing.length + 1) 1) ∉ existing
      ∧ ∀ j, 1 ≤ j → j < findFree existing base (existing.length + 1) 1 →
          candName base j ∈ existing := by
  by_cases hfree : ∃ k, 1 ≤ k ∧ candName base k ∉ existing ∧
      ∀ j, 1 ≤ j → j < k → candName base j ∈ existing
  · obtain ⟨k, hk1, hk2, hk3⟩ := hfree
    have hle := cand_pigeonhole hk3
    rw [findFree_eq hk2 hk3 (existing.length + 1) 1 (by omega) hk1 (by omega)]
    exact ⟨hk2, hk3⟩
  · exfalso
    apply hfree
    -- take the least free candidate index; one exists by pigeonhole
    have hex : ∃ k, 1 ≤ k ∧ candName base k ∉ existing := by
      by_contra hc
      push_neg at hc
      have : existing.length + 2 ≤ existing.length + 1 :=
        cand_pigeonhole (k := existing.length + 2) (fun j hj _ => hc j hj)
      omega
    obtain ⟨k, hk1, hk2⟩ := hex
    -- minimise k
    induction k using Nat.strong_induction_on with
    | _ k ihk =>
        by_cases hall : ∀ j, 1 ≤ j → j < k → candName base j ∈ existing
        · exact ⟨k, hk1, hk2, hall⟩
        · push_neg at hall
          obtain ⟨j, hj1, hj2, hj3⟩ := hall
          exact ihk j hj2 hj1 hj3

/-- `C4`: from an empty snapshot store, three `create_named("Run")` calls
choose `"Run"`, `"Run(1)"`, `"Run(2)"`; in general a free base name is used
as-is, and otherwise the first free `base(k)` (least `k ≥ 1`, linear probing,
exact string matching) is chosen. -/
theorem claim_C4_unique_names :
    ((createNamed [] "Run").1 = "Run"
      ∧ (createNamed (createNamed [] "Run").2 "Run").1 = "Run(1)"
      ∧ (createNamed (createNamed (createNamed [] "Run").2 "Run").2 "Run").1 = "Run(2)")
    ∧ ∀ (existing : List String) (base : String),
        (base ∉ existing → getUniqueSaveName existing base = base)
        ∧ ∀ k, 1 ≤ k → candName base k ∉ existing →
            (∀ j, 1 ≤ j → j < k → candName base j ∈ existing) →
            base ∈ existing →
            getUniqueSaveName existing base = candName base k := by
  refine ⟨⟨by decide, by decide, by decide⟩, ?_⟩
  intro existing base
  constructor
  · intro hfree
    rw [getUniqueSaveName, if_neg hfree]
  · intro k hk1 hk2 hk3 hbase
    have hle := cand_pigeonhole hk3
    rw [getUniqueSaveName, if_pos hbase,
      findFree_eq hk2 hk3 (existing.length + 1) 1 (by omega) hk1 (by omega)]

/-- Witness for `C4` at `existing = ["Run", "Run(1)"]`, `base = "Run"`,
`k = 2`. -/
theorem claim_C4_unique_names_witness :
    (1 ≤ 2 ∧ candName "Run" 2 ∉ ["Run", "Run(1)"]
      ∧ (∀ j, 1 ≤ j → j < 2 → candName "Run" j ∈ ["Run", "Run(1)"])
      ∧ "Run" ∈ ["Run", "Run(1)"])
    ∧ getUniqueSaveName ["Run", "Run(1)"] "Run" = candName "Run" 2 := by
  have hj : ∀ j, 1 ≤ j → j < 2 → candName "Run" j ∈ ["Run", "Run(1)"] := by
    intro j h1 h2
    interval_cases j
    decide
  exact ⟨⟨by decide, by decide, hj, by decide⟩,
    (claim_C4_unique_names.2 ["Run", "Run(1)"] "Run").2 2 (by decide) (by decide)
      hj (by decide)⟩

/-! ### Current-state persistence round trip — `src/managers/state_manager.py`

`save_current_state` dumps `{"time": …, "laps": […], "label_startstop_state":
{…}}` as one JSON document; `load_current_state` parses it back.  The JSON
object model (Python dict/list/str/float/bool/None as produced by
`json.dump`/`json.load`) is embedded as `Jso`; the file layer itself (text
serialisation and I/O) is the Python standard library and is external. -/

inductive Jso where
  | null : Jso
  | bool : Bool → Jso
  | num : ℚ → Jso
  | str : String → Jso
  | arr : List Jso → Jso
  | obj : List (String × Jso) → Jso

/-- `d.get(k)` on a decoded JSON object. -/
def jGet (fields : List (String × Jso)) (k : String) : Option Jso :=
  (fields.find? (fun p => p.1 == k)).map Prod.snd

def encodeType : Option LapType → Jso
  | none => Jso.null
  | some LapType.start => Jso.str "Start"
  | some LapType.stop => Jso.str "Stop"

def decodeType : Jso → Option (Option LapType)
  | Jso.null => some none
  | Jso.str s =>
      if s = "Start" then some (some LapType.start)
      else if s = "Stop" then some (some LapType.stop)
      else none
  | _ => none

def decodeNums : List Jso → Option (List ℚ)
  | [] => some []
  | Jso.num q :: rest => (decodeNums rest).map (q :: ·)
  | _ :: _ => none

/-- A label as written to JSON (optional keys omitted when absent, as in the
Python dicts). -/
def encodeLab (l : Lab) : Jso :=
  Jso.obj ([("name", Jso.str l.name), ("color", Jso.arr (l.color.map Jso.num))]
    ++ (match l.desc with | some d => [("desc", Jso.str d)] | none => [])
    ++ [("is_default", Jso.bool l.is_default), ("auto_startstop", Jso.bool l.auto_startstop)]
    ++ (match l.group with | some g => [("group", Jso.str g)] | none => []))

def decodeLab : Jso → Option Lab
  | Jso.obj fs =>
      match jGet fs "name", jGet fs "color" with
      | some (Jso.str nm), some (Jso.arr cs) =>
          match decodeNums cs with
          | some color =>
              let desc := match jGet fs "desc" with
                | some (Jso.str d) => some d
                | _ => none
              let isDef := match jGet fs "is_default" with
                | some (Jso.bool b) => b
                | _ => false
              let auto := match jGet fs "auto_startstop" with
                | some (Jso.bool b) => b
                | _ => false
              let group := match jGet fs "group" with
                | some (Jso.str g) => some g
                | _ => none
              some { name := nm, color := color, desc := desc, is_default := isDef,
                     auto_startstop := auto, group := group }
          | none => none
      | _, _ => none
  | _ => none

/-- A lap as written to JSON: `{"t": …, "lbl": …, "type": …}` plus `"note"`
when present. -/
def encodeLap (lap : Lap) : Jso :=
  Jso.obj ([("t", Jso.num lap.t), ("lbl", encodeLab lap.lbl),
      ("type", encodeType lap.type)]
    ++ (match lap.note with | some s => [("note", Jso.str s)] | none => []))

def decodeLap : Jso → Option Lap
  | Jso.obj fs =>
      match jGet fs "t", (jGet fs "lbl").bind decodeLab,
          (jGet fs "type").bind decodeType with
      | some (Jso.num t), some lbl, some ty =>
          let note := match jGet fs "note" with
            | some (Jso.str s) => some s
            | _ => none
          some { t := t, lbl := lbl, type := ty, note := note }
      | _, _, _ => none
  | _ => none

def decodeLaps : List Jso → Option (List Lap)
  | [] => some []
  | j :: rest =>
      match decodeLap j, decodeLaps rest with
      | some lap, some laps => some (lap :: laps)
      | _, _ => none

def encodeToggle (m : ToggleMap) : Jso :=
  Jso.obj (m.map (fun p => (p.1, Jso.bool p.2)))

def decodeTogglePairs : List (String × Jso) → Option ToggleMap
  | [] => some []
  | (k, Jso.bool b) :: rest => (decodeTogglePairs rest).map ((k, b) :: ·)
  | _ :: _ => none

def decodeToggle : Jso → Option ToggleMap
  | Jso.obj fs => decodeTogglePairs fs
  | _ => none

/-- `StateManager.save_current_state`: the JSON document written to the fixed
slot (always succeeds in-model; I/O failure returns `False` in Python and
writes nothing). -/
def saveCurrentState (s : Session) : Jso :=
  Jso.obj [("time", Jso.num s.time), ("laps", Jso.arr (s.laps.map encodeLap)),
           ("label_startstop_state", encodeToggle s.toggle)]

/-- `StateManager.load_current_state` plus the field extraction of
`TimerScreen._load_from_storage`: `None` when the slot is empty or does not
decode. -/
def loadCurrentState (stored : Option Jso) : Option Session :=
  stored.bind fun j =>
    match j with
    | Jso.obj fs =>
        match jGet fs "time", jGet fs "laps", jGet fs "label_startstop_state" with
        | some (Jso.num t), some (Jso.arr ls), some tog =>
            match decodeLaps ls, decodeToggle tog with
            | some laps, some m => some { time := t, laps := laps, toggle := m }
            | _, _ => none
        | _, _, _ => none
    | _ => none

theorem decodeNums_roundtrip (c : List ℚ) : decodeNums (c.map Jso.num) = some c := by
  induction c with
  | nil => rfl
  | cons q rest ih => simp [decodeNums, ih]

theorem decodeLab_roundtrip (l : Lab) : decodeLab (encodeLab l) = some l := by
  obtain ⟨nm, color, desc, isDef, auto, group⟩ := l
  cases desc <;> cases group <;>
    simp [encodeLab, decodeLab, jGet, List.find?_cons, decodeNums_roundtrip]

theorem decodeType_roundtrip (t : Option LapType) : decodeType (encodeType t) = some t := by
  rcases t with _ | t
  · rfl
  · cases t <;> rfl

theorem decodeLap_roundtrip (lap : Lap) : decodeLap (encodeLap lap) = some lap := by
  obtain ⟨t, lbl, ty, note⟩ := lap
  cases note <;>
    simp [encodeLap, decodeLap, jGet, List.find?_cons, decodeLab_roundtrip,
      decodeType_roundtrip]

theorem decodeLaps_roundtrip (laps : List Lap) :
    decodeLaps (laps.map encodeLap) = some laps := by
  induction laps with
  | nil => rfl
  | cons lap rest ih => simp [decodeLaps, decodeLap_roundtrip, ih]

theorem decodeToggle_roundtrip (m : ToggleMap) :
    decodeToggle (encodeToggle m) = some m := by
  show decodeTogglePairs (m.map (fun p => (p.1, Jso.bool p.2))) = some m
  induction m with
  | nil => rfl
  | cons p rest ih => simp [decodeTogglePairs, ih]

/-- `C6`: a successful `save_current(s)` followed by `load_current()` yields
a session whose `elapsed_seconds` (`time`), `laps` and `startstop_toggle`
are field-for-field equal to those of `s`. -/
theorem claim_C6_save_load_roundtrip (s : Session) :
    loadCurrentState (some (saveCurrentState s)) = some s := by
  obtain ⟨t, laps, tog⟩ := s
  simp [saveCurrentState, loadCurrentState, jGet, List.find?_cons,
    decodeLaps_roundtrip, decodeToggle_roundtrip]

/-! ### CSV export transform — `src/utils/export.py`, `_build_csv_content`

Rows are lists of cells; integer cells (`lap_number`, `len(laps)`) are
rendered decimally and a `None` type cell is written as the empty string,
exactly as Python's `csv.writer` emits them. -/

structure LabInfo where
  color : List ℚ
  desc : String
  auto : Bool
deriving DecidableEq, Repr

/-- Stable insertion into a key-sorted association list (used to model
Python's `sorted(d.items())`, keys pairwise distinct). -/
def insertByKey {β : Type} (p : String × β) : List (String × β) → List (String × β)
  | [] => [p]
  | q :: rest => if p.1 < q.1 then p :: q :: rest else q :: insertByKey p rest

def sortByKey {β : Type} (l : List (String × β)) : List (String × β) :=
  l.foldr insertByKey []

/-- One step of `CSVExporter._collect_labels_by_group`: record the label
under its group unless that (group, name) pair was already seen. -/
def addLabel (g nm : String) (info : LabInfo) :
    List (String × List (String × LabInfo)) → List (String × List (String × LabInfo))
  | [] => [(g, [(nm, info)])]
  | (g', labs) :: rest =>
      if g' = g then
        (if labs.any (fun p => p.1 == nm) then (g', labs) else (g', labs ++ [(nm, info)]))
          :: rest
      else (g', labs) :: addLabel g nm info rest

def collectLabelsByGroup (laps : List Lap) : List (String × List (String × LabInfo)) :=
  laps.foldl (fun acc lap =>
    addLabel (lap.lbl.group.getD "Default") lap.lbl.name
      { color := lap.lbl.color, desc := lap.lbl.desc.getD "",
        auto := lap.lbl.auto_startstop } acc) []

/-- `CSVExporter._build_label_info`. -/
def buildLabelInfo (laps : List Lap) : List (List String) :=
  [["# Used Labels:"], ["#     Name", "Description", "SpecialType"]]
    ++ ((sortByKey (collectLabelsByGroup laps)).map (fun p =>
          ["#   Group: " ++ p.1] :: (sortByKey p.2).map (fun q =>
            ["#     " ++ q.1, q.2.desc, if q.2.auto then "Start/Stop" else ""]))).flatten

/-- The cell `lap.get('type', '')` as written by `csv.writer` (`None` → ""). -/
def typeCellStr : Option LapType → String
  | none => ""
  | some LapType.start => "Start"
  | some LapType.stop => "Stop"

/-- The `for i, lap in enumerate(reversed(laps))` loop emitting data rows. -/
def dataRowsAux : Nat → List Lap → List (List String)
  | _, [] => []
  | i, lap :: rest =>
      [natRepr (i + 1), format_time lap.t, lap.lbl.name, typeCellStr lap.type,
        lap.note.getD ""] :: dataRowsAux (i + 1) rest

def dataRows (laps : List Lap) : List (List String) :=
  dataRowsAux 0 laps.reverse

/-- `CSVExporter._build_csv_content`. -/
def buildCsvContent (stateName savedAt : String) (totalTime : ℚ) (laps : List Lap) :
    List (List String) :=
  [["# Save State Export"], ["# Name:", stateName], ["# Created:", savedAt],
      ["# Total Time:", format_time totalTime], ["# Total Laps:", natRepr laps.length], []]
    ++ buildLabelInfo laps ++ [[]]
    ++ [["Lap", "Time", "Label", "SpecialType", "Note"]]
    ++ dataRows laps

theorem dataRowsAux_length : ∀ (l : List Lap) (i : Nat), (dataRowsAux i l).length = l.length := by
  intro l
  induction l with
  | nil => intro i; rfl
  | cons lap rest ih => intro i; simp [dataRowsAux, ih]

theorem dataRowsAux_get? :
    ∀ (l : List Lap) (start i : Nat) (lap : Lap), l.get? i = some lap →
      (dataRowsAux start l).get? i = some [natRepr (start + i + 1), format_time lap.t,
        lap.lbl.name, typeCellStr lap.type, lap.note.getD ""] := by
  intro l
  induction l with
  | nil => intro start i lap h; cases h
  | cons x rest ih =>
      intro start i lap h
      cases i with
      | zero =>
          simp only [List.get?] at h
          injection h with h
          subst h
          rfl
      | succ j =>
          simp only [List.get?] at h
          have := ih (start + 1) j lap h
          simpa [dataRowsAux, Nat.add_assoc, Nat.add_comm, Nat.add_left_comm] using this

/-- `C7`: the CSV data rows come after the metadata/legend prefix, one per
lap, emitted oldest first (reverse of the newest-first storage order), with
lap numbers `1, 2, …`, the formatted time, the label name, the type (or ""
when `None`) and the note (or "" when absent). -/
theorem claim_C7_csv_data_rows (stateName savedAt : String) (totalTime : ℚ)
    (laps : List Lap) :
    (∃ pre, buildCsvContent stateName savedAt totalTime laps = pre ++ dataRows laps)
    ∧ (dataRows laps).length = laps.length
    ∧ ∀ (i : Nat) (lap : Lap), i < laps.length →
        laps.get? (laps.length - 1 - i) = some lap →
        (dataRows laps).get? i = some [natRepr (i + 1), format_time lap.t,
          lap.lbl.name, typeCellStr lap.type, lap.note.getD ""] := by
  refine ⟨⟨[["# Save State Export"], ["# Name:", stateName], ["# Created:", savedAt],
      ["# Total Time:", format_time totalTime], ["# Total Laps:", natRepr laps.length], []]
    ++ buildLabelInfo laps ++ [[]]
    ++ [["Lap", "Time", "Label", "SpecialType", "Note"]], ?_⟩, ?_, ?_⟩
  · simp [buildCsvContent, List.append_assoc]
  · rw [dataRows, dataRowsAux_length, List.length_reverse]
  · intro i lap hi hget
    have hrev : laps.reverse.get? i = some lap := by
      rw [List.get?_eq_getElem?, List.getElem?_reverse hi, ← List.get?_eq_getElem?]
      exact hget
    have := dataRowsAux_get? laps.reverse 0 i lap hrev
    simpa [dataRows] using this

/-- Oldest lap of the witness export (recorded first, stored last). -/
def csvLapOld : Lap :=
  { t := 5, lbl := defaultLab, type := none, note := none }

/-- Newest lap of the witness export (stored first). -/
def csvLapNew : Lap :=
  { t := 10, lbl := runLab, type := some LapType.start, note := some "warmup" }

/-- Witness for `C7` on a concrete two-lap snapshot at row index 0. -/
theorem claim_C7_csv_data_rows_witness :
    (0 < ([csvLapNew, csvLapOld] : List Lap).length
      ∧ ([csvLapNew, csvLapOld] : List Lap).get?
          (([csvLapNew, csvLapOld] : List Lap).length - 1 - 0) = some csvLapOld)
    ∧ (dataRows [csvLapNew, csvLapOld]).get? 0 = some [natRepr (0 + 1),
        format_time csvLapOld.t, csvLapOld.lbl.name, typeCellStr csvLapOld.type,
        csvLapOld.note.getD ""] :=
  ⟨⟨by decide, by decide⟩,
    (claim_C7_csv_data_rows "Session" "2024-01-01T00:00:00" 15 [csvLapNew, csvLapOld]).2.2
      0 csvLapOld (by decide) (by decide)⟩

end Stopwatch
